import Mathlib

/-!
# Fixed-timestep loop and animated circle of `source/Client/main.cpp`

A shallow embedding of the two pieces of logic in `main.cpp`:

* `AnimatedCircle` (constructor, `startAnimation`, `integrate`), and
* one scheduling pass of the main loop (lines 109-127: sample the clock,
  cap the frame time, accumulate, drain fixed ticks).

Numbers.  The source computes with `double` (and stores the shape position as
`float`).  Here every duration and position is an exact rational number, so
`static_cast<float>` is the identity and `+`, `-`, `*`, `/` are exact.  All
statements below are statements about this exact-arithmetic reading of the
code.  Division is only ever used with a positive `animationDuration` in the
theorems, so the value Lean gives to `x / 0` plays no part.

The `int` counter `physicsFrames` is an unbounded integer here; it is reset
every second by the surrounding loop and its wrap-around is not modelled.
-/

namespace ZcClient

/-! ## Data model -/

/-- The part of `sf::CircleShape` that the program writes: the radius and the
position.  A default-constructed shape has radius 0 and sits at the origin. -/
structure CircleShape where
  radius : ℚ := 0
  positionX : ℚ := 0
  positionY : ℚ := 0
deriving DecidableEq

/-- Method `setRadius` of the shape. -/
def CircleShape.setRadius (sh : CircleShape) (r : ℚ) : CircleShape :=
  { sh with radius := r }

/-- Method `setPosition` of the shape. -/
def CircleShape.setPosition (sh : CircleShape) (x y : ℚ) : CircleShape :=
  { sh with positionX := x, positionY := y }

/-- The private members of class `AnimatedCircle` (main.cpp lines 23-29). -/
structure AnimatedCircle where
  shape : CircleShape
  startPosition : ℚ
  endPosition : ℚ
  animationDuration : ℚ
  elapsedTime : ℚ := 0
  animating : Bool := false
  toggleDirection : Bool := false
deriving DecidableEq

/-- The stored (displayed) x-position of the circle. -/
def AnimatedCircle.position (c : AnimatedCircle) : ℚ := c.shape.positionX

/-- The radius stored in the shape. -/
def AnimatedCircle.radius (c : AnimatedCircle) : ℚ := c.shape.radius

/-- Fixed timestep for physics updates (main.cpp line 12). -/
def dt : ℚ := 1 / 240

/-! ## `AnimatedCircle` operations -/

/-- Constructor `AnimatedCircle(radius, startPos, endPos, duration)`
(main.cpp lines 32-37). -/
def AnimatedCircle.new (radius startPos endPos duration : ℚ) : AnimatedCircle :=
  let shape : CircleShape := {}
  let shape := shape.setRadius radius
  let shape := shape.setPosition startPos 300
  { shape := shape
    startPosition := startPos
    endPosition := endPos
    animationDuration := duration }

/-- Method `startAnimation()` (main.cpp lines 39-45). -/
def AnimatedCircle.startAnimation (c : AnimatedCircle) : AnimatedCircle :=
  { c with
    animating := true
    elapsedTime := 0
    startPosition := c.endPosition
    endPosition := c.startPosition
    toggleDirection := !c.toggleDirection }

/-- Method `integrate(dt)` (main.cpp lines 48-63). -/
def AnimatedCircle.integrate (c : AnimatedCircle) (dt : ℚ) : AnimatedCircle :=
  if c.animating then
    let elapsedTime := c.elapsedTime + dt
    let t := elapsedTime / c.animationDuration
    let animating := if t ≥ 1 then false else c.animating
    let t := if t ≥ 1 then 1 else t
    let newPosition := c.startPosition * (1 - t) + c.endPosition * t
    { c with
      elapsedTime := elapsedTime
      animating := animating
      shape := c.shape.setPosition newPosition 300 }
  else
    c

/-- A sequence of `integrate` calls, one per listed step, in order. -/
def AnimatedCircle.integrateAll (c : AnimatedCircle) : List ℚ → AnimatedCircle
  | [] => c
  | d :: ds => (c.integrate d).integrateAll ds

/-- The calls a client can make on a constructed circle. -/
inductive Call where
  | start : Call
  | integ : ℚ → Call
deriving DecidableEq

/-- Perform one call. -/
def AnimatedCircle.perform (c : AnimatedCircle) : Call → AnimatedCircle
  | Call.start => c.startAnimation
  | Call.integ d => c.integrate d

/-- Perform a sequence of calls, in order. -/
def AnimatedCircle.performAll (c : AnimatedCircle) : List Call → AnimatedCircle
  | [] => c
  | k :: ks => (c.perform k).performAll ks

/-- Every `integrate` step of a call sequence is non-negative. -/
def Call.nonneg : Call → Prop
  | Call.start => True
  | Call.integ d => 0 ≤ d

/-- The circle `main` builds (main.cpp lines 80-81). -/
def mainCircle : AnimatedCircle := AnimatedCircle.new 50 50 750 1

/-- The loop variables the scheduling pass reads and writes. -/
structure LoopState where
  currentTime : ℚ
  accumulator : ℚ
  circle : AnimatedCircle
  physicsFrames : ℤ
deriving DecidableEq

/-- Lines 110-117: the frame time `newTime - currentTime`, capped at 0.25. -/
def cappedFrameTime (currentTime newTime : ℚ) : ℚ :=
  let frameTime := newTime - currentTime
  if frameTime > 0.25 then 0.25 else frameTime

/-- Lines 123-127: `while (accumulator >= dt) { integrate; accumulator -= dt;
physicsFrames++; }`. -/
def drainTicks (s : LoopState) : LoopState :=
  if h : s.accumulator ≥ dt then
    drainTicks
      { s with
        circle := s.circle.integrate dt
        accumulator := s.accumulator - dt
        physicsFrames := s.physicsFrames + 1 }
  else
    s
termination_by (⌊s.accumulator / dt⌋).toNat
decreasing_by
  have hdt : (0 : ℚ) < dt := by norm_num [dt]
  have h1 : (s.accumulator - dt) / dt = s.accumulator / dt - 1 := by
    field_simp
  have h2 : (1 : ℚ) ≤ s.accumulator / dt := by
    rw [le_div_iff₀ hdt]; linarith [h]
  have h3 : (1 : ℤ) ≤ ⌊s.accumulator / dt⌋ := by
    rw [Int.le_floor]; exact_mod_cast h2
  show (⌊(s.accumulator - dt) / dt⌋).toNat < (⌊s.accumulator / dt⌋).toNat
  rw [h1, Int.floor_sub_one]
  omega

/-- Lines 109-127: one scheduling pass, given the clock sample `newTime`. -/
def schedulingPass (s : LoopState) (newTime : ℚ) : LoopState :=
  let frameTime := cappedFrameTime s.currentTime newTime
  drainTicks
    { s with
      currentTime := newTime
      accumulator := s.accumulator + frameTime }

/-- The loop variables as `main` has them when the loop is entered, with the
clock read as 0. -/
def loopStart : LoopState :=
  { currentTime := 0, accumulator := 0, circle := mainCircle, physicsFrames := 0 }

/-- Loop variables whose last clock sample is 1. -/
def loopAtOne : LoopState :=
  { currentTime := 1, accumulator := 0, circle := mainCircle, physicsFrames := 0 }

/-! ## Basic facts about `integrate` -/

theorem integrate_idle (c : AnimatedCircle) (d : ℚ) (h : c.animating = false) :
    c.integrate d = c := by
  simp [AnimatedCircle.integrate, h]

theorem integrateAll_append (ds es : List ℚ) (c : AnimatedCircle) :
    c.integrateAll (ds ++ es) = (c.integrateAll ds).integrateAll es := by
  induction ds generalizing c with
  | nil => rfl
  | cons d ds ih => simp [AnimatedCircle.integrateAll, ih]

theorem integrate_startPosition (c : AnimatedCircle) (d : ℚ) :
    (c.integrate d).startPosition = c.startPosition := by
  unfold AnimatedCircle.integrate; split <;> rfl

theorem integrate_animationDuration (c : AnimatedCircle) (d : ℚ) :
    (c.integrate d).animationDuration = c.animationDuration := by
  unfold AnimatedCircle.integrate; split <;> rfl

/-- A step that does not complete the animation. -/
theorem integrate_running (c : AnimatedCircle) (d : ℚ) (ha : c.animating = true)
    (hD : 0 < c.animationDuration) (h : c.elapsedTime + d < c.animationDuration) :
    (c.integrate d).animating = true ∧ (c.integrate d).elapsedTime = c.elapsedTime + d := by
  have ht : ¬ 1 ≤ (c.elapsedTime + d) / c.animationDuration := by
    rw [le_div_iff₀ hD]; linarith
  simp [AnimatedCircle.integrate, ha, ht]

theorem perform_animationDuration (c : AnimatedCircle) (k : Call) :
    (c.perform k).animationDuration = c.animationDuration := by
  cases k with
  | start => rfl
  | integ d => exact integrate_animationDuration c d

/-- The elapsed time never goes negative, and stays within the duration
while the animation runs. -/
theorem perform_elapsed (c : AnimatedCircle) (k : Call) (hD : 0 < c.animationDuration)
    (hk : k.nonneg)
    (h : 0 ≤ c.elapsedTime ∧ (c.animating = true → c.elapsedTime ≤ c.animationDuration)) :
    0 ≤ (c.perform k).elapsedTime ∧
      ((c.perform k).animating = true →
        (c.perform k).elapsedTime ≤ (c.perform k).animationDuration) := by
  cases k with
  | start =>
    simp only [AnimatedCircle.perform, AnimatedCircle.startAnimation]
    exact ⟨le_refl _, fun _ => le_of_lt hD⟩
  | integ d =>
    have hd : 0 ≤ d := hk
    simp only [AnimatedCircle.perform]
    by_cases ha : c.animating = true
    · by_cases hc : c.animationDuration ≤ c.elapsedTime + d
      · have ht : 1 ≤ (c.elapsedTime + d) / c.animationDuration := by
          rw [le_div_iff₀ hD]; linarith
        have he : 0 ≤ c.elapsedTime + d := by linarith [h.1]
        simp [AnimatedCircle.integrate, ha, ht, he]
      · obtain ⟨_, h2⟩ := integrate_running c d ha hD (not_le.mp hc)
        rw [h2, integrate_animationDuration]
        exact ⟨by linarith [h.1], fun _ => le_of_lt (not_le.mp hc)⟩
    · have ha2 : c.animating = false := by simpa using ha
      rw [integrate_idle c d ha2]
      exact h

theorem performAll_elapsed (ks : List Call) (c : AnimatedCircle)
    (hD : 0 < c.animationDuration) (hk : ∀ k ∈ ks, k.nonneg)
    (h : 0 ≤ c.elapsedTime ∧ (c.animating = true → c.elapsedTime ≤ c.animationDuration)) :
    0 ≤ (c.performAll ks).elapsedTime ∧
      ((c.performAll ks).animating = true →
        (c.performAll ks).elapsedTime ≤ (c.performAll ks).animationDuration) := by
  induction ks generalizing c with
  | nil => exact h
  | cons k ks ih =>
    have hk1 : k.nonneg := hk k (List.mem_cons_self k ks)
    exact ih (c.perform k) (by rw [perform_animationDuration]; exact hD)
      (fun j hj => hk j (List.mem_cons_of_mem k hj)) (perform_elapsed c k hD hk1 h)

/-! ## The animated circle: results -/

/-- C5: `startAnimation()`, from any state, swaps `startPosition` and
`endPosition`, sets `elapsedTime` to 0 and `animating` to true, and leaves
`animationDuration`, the radius and the stored position unchanged. -/
theorem C5_startAnimation_postcondition (c : AnimatedCircle) :
    c.startAnimation.startPosition = c.endPosition ∧
      c.startAnimation.endPosition = c.startPosition ∧
      c.startAnimation.elapsedTime = 0 ∧
      c.startAnimation.animating = true ∧
      c.startAnimation.animationDuration = c.animationDuration ∧
      c.startAnimation.radius = c.radius ∧
      c.startAnimation.position = c.position :=
  ⟨rfl, rfl, rfl, rfl, rfl, rfl, rfl⟩

/-- C7: consecutive `startAnimation()` calls alternate the end points: the
second call holds the first call's pair swapped, which is the pair held before
the first call, and the third call holds the same pair as the first. -/
theorem C7_double_swap (c : AnimatedCircle) :
    c.startAnimation.startAnimation.startPosition = c.startAnimation.endPosition ∧
      c.startAnimation.startAnimation.endPosition = c.startAnimation.startPosition ∧
      c.startAnimation.startAnimation.startPosition = c.startPosition ∧
      c.startAnimation.startAnimation.endPosition = c.endPosition ∧
      c.startAnimation.startAnimation.startAnimation.startPosition
        = c.startAnimation.startPosition ∧
      c.startAnimation.startAnimation.startAnimation.endPosition
        = c.startAnimation.endPosition :=
  ⟨rfl, rfl, rfl, rfl, rfl, rfl⟩

/-- C10: in every state reachable from construction with
`animationDuration > 0` by `startAnimation()` and `integrate(dt)` calls with
`dt >= 0`, whenever `animating` is true, `0 <= elapsedTime <= animationDuration`. -/
theorem C10_elapsed_invariant (r s e D : ℚ) (calls : List Call) (hD : 0 < D)
    (hnn : ∀ k ∈ calls, k.nonneg)
    (ha : ((AnimatedCircle.new r s e D).performAll calls).animating = true) :
    0 ≤ ((AnimatedCircle.new r s e D).performAll calls).elapsedTime ∧
      ((AnimatedCircle.new r s e D).performAll calls).elapsedTime
        ≤ ((AnimatedCircle.new r s e D).performAll calls).animationDuration := by
  have h := performAll_elapsed calls (AnimatedCircle.new r s e D) hD hnn
    ⟨le_refl _, fun _ => le_of_lt hD⟩
  exact ⟨h.1, h.2 ha⟩

/-- C10 at a concrete input: the program's circle after a trigger and a step
of 1/4 is animating with elapsed time between 0 and the duration. -/
theorem C10_elapsed_invariant_witness :
    (0 : ℚ) < 1 ∧ (∀ k ∈ [Call.start, Call.integ (1 / 4)], k.nonneg) ∧
      ((AnimatedCircle.new 50 50 750 1).performAll
        [Call.start, Call.integ (1 / 4)]).animating = true ∧
      0 ≤ ((AnimatedCircle.new 50 50 750 1).performAll
        [Call.start, Call.integ (1 / 4)]).elapsedTime ∧
      ((AnimatedCircle.new 50 50 750 1).performAll
        [Call.start, Call.integ (1 / 4)]).elapsedTime
        ≤ ((AnimatedCircle.new 50 50 750 1).performAll
          [Call.start, Call.integ (1 / 4)]).animationDuration := by
  have hk : ∀ k ∈ [Call.start, Call.integ (1 / 4)], k.nonneg := by
    intro k hk
    simp at hk
    rcases hk with rfl | rfl
    · trivial
    · simp [Call.nonneg]
  have ha : ((AnimatedCircle.new 50 50 750 1).performAll
      [Call.start, Call.integ (1 / 4)]).animating = true := by
    norm_num [AnimatedCircle.new, AnimatedCircle.performAll, AnimatedCircle.perform,
      AnimatedCircle.startAnimation, AnimatedCircle.integrate]
  exact ⟨by norm_num, hk, ha, C10_elapsed_invariant 50 50 750 1 _ (by norm_num) hk ha⟩

/-! ## The scheduling pass: facts about the drain loop -/

theorem dt_pos : (0 : ℚ) < dt := by norm_num [dt]

theorem cappedFrameTime_eq_min (currentTime newTime : ℚ) :
    cappedFrameTime currentTime newTime = min (newTime - currentTime) 0.25 := by
  unfold cappedFrameTime
  by_cases h : newTime - currentTime > 0.25
  · simp only [h, if_true]; exact (min_eq_right (le_of_lt h)).symm
  · simp only [h, if_false]; exact (min_eq_left (not_lt.mp h)).symm

/-- The loop body is not entered when less than one tick is left. -/
theorem drainTicks_done (s : LoopState) (h : s.accumulator < dt) : drainTicks s = s := by
  rw [drainTicks]
  simp [not_le.mpr h]

/-- One turn of the loop when at least one tick is left. -/
theorem drainTicks_turn (s : LoopState) (h : dt ≤ s.accumulator) :
    drainTicks s = drainTicks
      { s with
        circle := s.circle.integrate dt
        accumulator := s.accumulator - dt
        physicsFrames := s.physicsFrames + 1 } := by
  rw [drainTicks]
  simp [h]

/-- With `n` whole ticks in the accumulator the loop runs `n` times. -/
theorem drainTicks_iter (n : ℕ) (s : LoopState) (hlo : (n : ℚ) * dt ≤ s.accumulator)
    (hhi : s.accumulator < ((n : ℚ) + 1) * dt) :
    drainTicks s =
      { currentTime := s.currentTime
        accumulator := s.accumulator - (n : ℚ) * dt
        circle := s.circle.integrateAll (List.replicate n dt)
        physicsFrames := s.physicsFrames + (n : ℤ) } := by
  induction n generalizing s with
  | zero =>
    rw [drainTicks_done s (by simpa using hhi)]
    cases s
    simp [AnimatedCircle.integrateAll]
  | succ n ih =>
    have hge : dt ≤ s.accumulator := by
      have : (0 : ℚ) ≤ (n : ℚ) * dt := mul_nonneg (Nat.cast_nonneg n) (le_of_lt dt_pos)
      push_cast at hlo
      linarith
    rw [drainTicks_turn s hge, ih]
    · simp only [List.replicate_succ, AnimatedCircle.integrateAll, LoopState.mk.injEq,
        true_and]
      refine ⟨?_, ?_⟩
      · push_cast; ring
      · push_cast; ring
    · show (n : ℚ) * dt ≤ s.accumulator - dt
      push_cast at hlo
      linarith
    · show s.accumulator - dt < ((n : ℚ) + 1) * dt
      push_cast at hhi
      linarith

/-- The drain loop in closed form, for any accumulator value. -/
theorem drainTicks_closed (s : LoopState) :
    drainTicks s =
      { currentTime := s.currentTime
        accumulator := s.accumulator - ((⌊s.accumulator / dt⌋.toNat : ℕ) : ℚ) * dt
        circle := s.circle.integrateAll (List.replicate ⌊s.accumulator / dt⌋.toNat dt)
        physicsFrames := s.physicsFrames + ((⌊s.accumulator / dt⌋.toNat : ℕ) : ℤ) } := by
  by_cases hneg : s.accumulator < 0
  · have hfl : ⌊s.accumulator / dt⌋ < 0 := by
      rw [Int.floor_lt]
      exact_mod_cast div_neg_of_neg_of_pos hneg dt_pos
    have hz : ⌊s.accumulator / dt⌋.toNat = 0 := by omega
    rw [hz, drainTicks_done s (lt_trans hneg dt_pos)]
    cases s
    simp [AnimatedCircle.integrateAll]
  · have hnn : 0 ≤ s.accumulator := not_lt.mp hneg
    have hfl : 0 ≤ ⌊s.accumulator / dt⌋ := Int.floor_nonneg.mpr (div_nonneg hnn (le_of_lt dt_pos))
    have hcast : ((⌊s.accumulator / dt⌋.toNat : ℕ) : ℚ) = (⌊s.accumulator / dt⌋ : ℚ) := by
      have : ((⌊s.accumulator / dt⌋.toNat : ℕ) : ℤ) = ⌊s.accumulator / dt⌋ := Int.toNat_of_nonneg hfl
      exact_mod_cast this
    apply drainTicks_iter
    · rw [hcast, ← le_div_iff₀ dt_pos]
      exact Int.floor_le _
    · rw [hcast, ← div_lt_iff₀ dt_pos]
      exact Int.lt_floor_add_one _

/-- The pass in closed form: the capped frame time is added, then the drain
loop removes the whole ticks. -/
theorem schedulingPass_closed (s : LoopState) (newTime : ℚ) :
    schedulingPass s newTime =
      { currentTime := newTime
        accumulator := s.accumulator + cappedFrameTime s.currentTime newTime
          - ((⌊(s.accumulator + cappedFrameTime s.currentTime newTime) / dt⌋.toNat : ℕ) : ℚ) * dt
        circle := s.circle.integrateAll
          (List.replicate ⌊(s.accumulator + cappedFrameTime s.currentTime newTime) / dt⌋.toNat dt)
        physicsFrames := s.physicsFrames
          + ((⌊(s.accumulator + cappedFrameTime s.currentTime newTime) / dt⌋.toNat : ℕ) : ℤ) } := by
  unfold schedulingPass
  rw [drainTicks_closed]

/-! ## The scheduling pass: results -/

/-- C1: one scheduling pass is a division with remainder.  For an accumulator
`a >= 0` and a frame time `f = newTime - currentTime >= 0`, with
`n = floor((a + min(f, 0.25)) / dt)` and `dt = 1/240`, the pass returns having
called `integrate(dt)` on the circle `n` times in a row (the tick counter
`physicsFrames` goes up by `n`), and leaves the accumulator equal to
`a + min(f, 0.25) - n*dt`, which is `>= 0` and `< dt`. -/
theorem C1_pass_is_division (s : LoopState) (newTime : ℚ) (ha : 0 ≤ s.accumulator)
    (hf : 0 ≤ newTime - s.currentTime) :
    dt = 1 / 240 ∧
      0 ≤ ⌊(s.accumulator + min (newTime - s.currentTime) 0.25) / dt⌋ ∧
      (schedulingPass s newTime).physicsFrames
        = s.physicsFrames + ⌊(s.accumulator + min (newTime - s.currentTime) 0.25) / dt⌋ ∧
      (schedulingPass s newTime).circle
        = s.circle.integrateAll (List.replicate
            ⌊(s.accumulator + min (newTime - s.currentTime) 0.25) / dt⌋.toNat dt) ∧
      (schedulingPass s newTime).accumulator
        = s.accumulator + min (newTime - s.currentTime) 0.25
          - (⌊(s.accumulator + min (newTime - s.currentTime) 0.25) / dt⌋ : ℚ) * dt ∧
      0 ≤ (schedulingPass s newTime).accumulator ∧
      (schedulingPass s newTime).accumulator < dt := by
  have htot : 0 ≤ s.accumulator + min (newTime - s.currentTime) 0.25 :=
    add_nonneg ha (le_min hf (by norm_num))
  have hfl : 0 ≤ ⌊(s.accumulator + min (newTime - s.currentTime) 0.25) / dt⌋ :=
    Int.floor_nonneg.mpr (div_nonneg htot (le_of_lt dt_pos))
  have hz : ((⌊(s.accumulator + min (newTime - s.currentTime) 0.25) / dt⌋.toNat : ℕ) : ℤ)
      = ⌊(s.accumulator + min (newTime - s.currentTime) 0.25) / dt⌋ := Int.toNat_of_nonneg hfl
  have hq : ((⌊(s.accumulator + min (newTime - s.currentTime) 0.25) / dt⌋.toNat : ℕ) : ℚ)
      = (⌊(s.accumulator + min (newTime - s.currentTime) 0.25) / dt⌋ : ℚ) := by
    exact_mod_cast hz
  have hlo : (⌊(s.accumulator + min (newTime - s.currentTime) 0.25) / dt⌋ : ℚ) * dt
      ≤ s.accumulator + min (newTime - s.currentTime) 0.25 := by
    rw [← le_div_iff₀ dt_pos]; exact Int.floor_le _
  have hhi : s.accumulator + min (newTime - s.currentTime) 0.25
      < ((⌊(s.accumulator + min (newTime - s.currentTime) 0.25) / dt⌋ : ℚ) + 1) * dt := by
    rw [← div_lt_iff₀ dt_pos]; exact Int.lt_floor_add_one _
  rw [schedulingPass_closed, cappedFrameTime_eq_min]
  simp only [hz, hq]
  refine ⟨rfl, hfl, trivial, trivial, trivial, ?_, ?_⟩
  · linarith
  · linarith

/-- C1 at the spec's scenario: accumulator 0 and one frame of 1/60 s give
exactly 4 ticks and leave the accumulator at 0. -/
theorem C1_pass_is_division_witness :
    0 ≤ loopStart.accumulator ∧ 0 ≤ (1 / 60 : ℚ) - loopStart.currentTime ∧
      (schedulingPass loopStart (1 / 60)).physicsFrames = 4 ∧
      (schedulingPass loopStart (1 / 60)).circle
        = mainCircle.integrateAll [dt, dt, dt, dt] ∧
      (schedulingPass loopStart (1 / 60)).accumulator = 0 := by
  have ha : 0 ≤ loopStart.accumulator := by norm_num [loopStart]
  have hf : 0 ≤ (1 / 60 : ℚ) - loopStart.currentTime := by norm_num [loopStart]
  have hfl : ⌊(loopStart.accumulator + min ((1 / 60 : ℚ) - loopStart.currentTime) 0.25) / dt⌋
      = 4 := by
    have hm : min ((1 / 60 : ℚ) - 0) 0.25 = 1 / 60 := by
      rw [min_eq_left]; norm_num
      norm_num
    have hv : (loopStart.accumulator + min ((1 / 60 : ℚ) - loopStart.currentTime) 0.25) / dt
        = ((4 : ℤ) : ℚ) := by
      simp only [loopStart, hm]
      norm_num [dt]
    rw [hv, Int.floor_intCast]
  obtain ⟨_, _, h3, h4, h5, _, _⟩ := C1_pass_is_division loopStart (1 / 60) ha hf
  rw [hfl] at h3 h4 h5
  refine ⟨ha, hf, ?_, ?_, ?_⟩
  · rw [h3]; norm_num [loopStart]
  · rw [h4]; rfl
  · rw [h5]
    have hm : min ((1 / 60 : ℚ) - 0) 0.25 = 1 / 60 := by
      rw [min_eq_left]; norm_num
      norm_num
    simp only [loopStart, hm]
    norm_num [dt]

/-- C2: when the frame time `f = newTime - currentTime` exceeds 0.25 s the
time added to the accumulator is exactly 0.25, so the pass leaves the same
accumulator, circle and tick count as a pass with `f = 0.25`, whatever the
accumulator held; when `0 <= f <= 0.25` the time added is exactly `f`. -/
theorem C2_frame_time_clamp (s : LoopState) (newTime : ℚ) :
    (0.25 < newTime - s.currentTime →
        cappedFrameTime s.currentTime newTime = 0.25 ∧
        cappedFrameTime s.currentTime (s.currentTime + 0.25) = 0.25 ∧
        (schedulingPass s newTime).accumulator
          = (schedulingPass s (s.currentTime + 0.25)).accumulator ∧
        (schedulingPass s newTime).physicsFrames
          = (schedulingPass s (s.currentTime + 0.25)).physicsFrames ∧
        (schedulingPass s newTime).circle
          = (schedulingPass s (s.currentTime + 0.25)).circle) ∧
      (0 ≤ newTime - s.currentTime → newTime - s.currentTime ≤ 0.25 →
        cappedFrameTime s.currentTime newTime = newTime - s.currentTime ∧
        (schedulingPass s newTime).accumulator
          = (drainTicks { s with accumulator := s.accumulator
              + (newTime - s.currentTime) }).accumulator) := by
  constructor
  · intro h
    have h1 : cappedFrameTime s.currentTime newTime = 0.25 := by
      rw [cappedFrameTime_eq_min]; exact min_eq_right (le_of_lt h)
    have h2 : cappedFrameTime s.currentTime (s.currentTime + 0.25) = 0.25 := by
      rw [cappedFrameTime_eq_min]; simp
    refine ⟨h1, h2, ?_, ?_, ?_⟩ <;> rw [schedulingPass_closed, schedulingPass_closed, h1, h2]
  · intro _ h
    have h1 : cappedFrameTime s.currentTime newTime = newTime - s.currentTime := by
      rw [cappedFrameTime_eq_min]; exact min_eq_left h
    refine ⟨h1, ?_⟩
    rw [schedulingPass_closed, drainTicks_closed, h1]

/-- C2 at concrete inputs: from the loop's first state a frame of 10 s adds
0.25 s, as a frame of 0.25 s does, and a frame of 1/10 s adds 1/10 s. -/
theorem C2_frame_time_clamp_witness :
    ((0.25 : ℚ) < 10 - loopStart.currentTime ∧
        cappedFrameTime loopStart.currentTime 10 = 0.25 ∧
        (schedulingPass loopStart 10).accumulator
          = (schedulingPass loopStart (loopStart.currentTime + 0.25)).accumulator ∧
        (schedulingPass loopStart 10).physicsFrames
          = (schedulingPass loopStart (loopStart.currentTime + 0.25)).physicsFrames) ∧
      ((0 : ℚ) ≤ 1 / 10 - loopStart.currentTime ∧
        (1 / 10 : ℚ) - loopStart.currentTime ≤ 0.25 ∧
        cappedFrameTime loopStart.currentTime (1 / 10) = 1 / 10 - loopStart.currentTime) := by
  have h1 : (0.25 : ℚ) < 10 - loopStart.currentTime := by norm_num [loopStart]
  have h2 : (0 : ℚ) ≤ 1 / 10 - loopStart.currentTime := by norm_num [loopStart]
  have h3 : (1 / 10 : ℚ) - loopStart.currentTime ≤ 0.25 := by norm_num [loopStart]
  obtain ⟨a1, _, a3, a4, _⟩ := (C2_frame_time_clamp loopStart 10).1 h1
  exact ⟨⟨h1, a1, a3, a4⟩, h2, h3, ((C2_frame_time_clamp loopStart (1 / 10)).2 h2 h3).1⟩

/-- C8 as stated fails: the code takes the difference of the two clock samples
as it is.  With the last sample at 1 and the new sample at 0 the frame time
added is -1 and the accumulator, 0 before the pass, is -1 after it. -/
theorem C8_backward_clock_goes_negative :
    0 ≤ loopAtOne.accumulator ∧
      cappedFrameTime loopAtOne.currentTime 0 = -1 ∧
      cappedFrameTime loopAtOne.currentTime 0 < 0 ∧
      (schedulingPass loopAtOne 0).accumulator = -1 ∧
      (schedulingPass loopAtOne 0).accumulator < 0 := by
  have hc : cappedFrameTime loopAtOne.currentTime 0 = -1 := by
    norm_num [cappedFrameTime, loopAtOne]
  have hs : (schedulingPass loopAtOne 0).accumulator = -1 := by
    unfold schedulingPass
    rw [hc, drainTicks_done]
    · norm_num [loopAtOne]
    · norm_num [loopAtOne, dt]
  refine ⟨by norm_num [loopAtOne], hc, ?_, hs, ?_⟩
  · rw [hc]; norm_num
  · rw [hs]; norm_num

/-- C8 (amended): for an accumulator `a >= 0` and clock samples with
`now >= lastTime`, the frame time added to the accumulator is `>= 0` and the
accumulator is `>= 0` after the pass. -/
theorem C8_forward_clock_nonneg (s : LoopState) (newTime : ℚ) (ha : 0 ≤ s.accumulator)
    (hmono : s.currentTime ≤ newTime) :
    0 ≤ cappedFrameTime s.currentTime newTime ∧ 0 ≤ (schedulingPass s newTime).accumulator := by
  have hf : 0 ≤ newTime - s.currentTime := by linarith
  have hc : 0 ≤ cappedFrameTime s.currentTime newTime := by
    rw [cappedFrameTime_eq_min]; exact le_min hf (by norm_num)
  refine ⟨hc, ?_⟩
  have htot : 0 ≤ s.accumulator + cappedFrameTime s.currentTime newTime := add_nonneg ha hc
  have hfl : 0 ≤ ⌊(s.accumulator + cappedFrameTime s.currentTime newTime) / dt⌋ :=
    Int.floor_nonneg.mpr (div_nonneg htot (le_of_lt dt_pos))
  have hq : ((⌊(s.accumulator + cappedFrameTime s.currentTime newTime) / dt⌋.toNat : ℕ) : ℚ)
      = (⌊(s.accumulator + cappedFrameTime s.currentTime newTime) / dt⌋ : ℚ) := by
    have : ((⌊(s.accumulator + cappedFrameTime s.currentTime newTime) / dt⌋.toNat : ℕ) : ℤ)
        = ⌊(s.accumulator + cappedFrameTime s.currentTime newTime) / dt⌋ :=
      Int.toNat_of_nonneg hfl
    exact_mod_cast this
  have hlo : (⌊(s.accumulator + cappedFrameTime s.currentTime newTime) / dt⌋ : ℚ) * dt
      ≤ s.accumulator + cappedFrameTime s.currentTime newTime := by
    rw [← le_div_iff₀ dt_pos]; exact Int.floor_le _
  rw [schedulingPass_closed]
  show 0 ≤ s.accumulator + cappedFrameTime s.currentTime newTime
    - ((⌊(s.accumulator + cappedFrameTime s.currentTime newTime) / dt⌋.toNat : ℕ) : ℚ) * dt
  rw [hq]
  linarith

/-- C8 (amended) at a concrete input: from the loop's first state a sample
taken 1/60 s later adds a non-negative frame time and leaves a non-negative
accumulator. -/
theorem C8_forward_clock_nonneg_witness :
    0 ≤ loopStart.accumulator ∧ loopStart.currentTime ≤ 1 / 60 ∧
      0 ≤ cappedFrameTime loopStart.currentTime (1 / 60) ∧
      0 ≤ (schedulingPass loopStart (1 / 60)).accumulator := by
  have ha : 0 ≤ loopStart.accumulator := by norm_num [loopStart]
  have hm : loopStart.currentTime ≤ 1 / 60 := by norm_num [loopStart]
  exact ⟨ha, hm, C8_forward_clock_nonneg loopStart (1 / 60) ha hm⟩

end ZcClient
